import Mathlib

/-!
Verification of marc-poljak/terraform-plan-filter.

Shallow embedding of the Go sources:
  - internal/model/resource.go   (ResourceCollection and its methods)
  - internal/parser/parser.go    (ParseTerraformPlan and helpers)
  - the formatter package        (FormatText, FormatJSON and helpers)

Go strings are modeled by Lean String; a Go map[string]struct{} (a set of
addresses) is modeled by a duplicate-free List String in insertion order
(Go map iteration order is unspecified; every consumer either sorts or
counts, so the list order is irrelevant to the stated properties).
Go ints that only ever hold counts are modeled by Nat.
-/

namespace TPF

/-- Go strings.HasPrefix on character lists: listStartsWith s pre is true
when pre is a leading segment of s. -/
def listStartsWith : List Char → List Char → Bool
  | _, [] => true
  | [], _ :: _ => false
  | c :: cs, p :: ps => c = p && listStartsWith cs ps

/-- Go strings.HasPrefix. -/
def strStartsWith (s pre : String) : Bool :=
  listStartsWith s.toList pre.toList

/-- Go strings.Contains on character lists: does pat occur contiguously in s? -/
def listContainsSub (pat : List Char) : List Char → Bool
  | [] => listStartsWith [] pat
  | c :: rest => listStartsWith (c :: rest) pat || listContainsSub pat rest

/-- Go strings.Contains. -/
def containsSubstr (s pat : String) : Bool :=
  listContainsSub pat.toList s.toList

/-- Lexicographic comparison of character lists by code point, the order
Go sort.Strings uses (byte order and code-point order agree on the ASCII
addresses this program handles). -/
def lexLe : List Char → List Char → Bool
  | [], _ => true
  | _ :: _, [] => false
  | a :: as, b :: bs =>
      if a.toNat < b.toNat then true
      else if b.toNat < a.toNat then false
      else lexLe as bs

/-- The string order used by the Go code when it sorts addresses and type names. -/
def SLe (a b : String) : Prop := lexLe a.toList b.toList = true

instance : DecidableRel SLe := fun a b =>
  inferInstanceAs (Decidable (lexLe a.toList b.toList = true))

theorem lexLe_total (l m : List Char) : lexLe l m = true ∨ lexLe m l = true := by
  induction l generalizing m with
  | nil => exact Or.inl rfl
  | cons a as ih =>
      cases m with
      | nil => exact Or.inr rfl
      | cons b bs =>
          rcases Nat.lt_trichotomy a.toNat b.toNat with h | h | h
          · left; simp [lexLe, h]
          · rcases ih bs with h2 | h2
            · left; simp [lexLe, h, h2]
            · right; simp [lexLe, h.symm, h2]
          · right; simp [lexLe, h]

theorem lexLe_trans : ∀ {l m n : List Char}, lexLe l m = true →
    lexLe m n = true → lexLe l n = true
  | [], _, _, _, _ => rfl
  | _ :: _, [], _, h1, _ => by simp [lexLe] at h1
  | _ :: _, _ :: _, [], _, h2 => by simp [lexLe] at h2
  | a :: as, b :: bs, c :: cs, h1, h2 => by
      simp only [lexLe] at h1 h2 ⊢
      by_cases hab : a.toNat < b.toNat
      · by_cases hbc : b.toNat < c.toNat
        · simp [show a.toNat < c.toNat from Nat.lt_trans hab hbc]
        · by_cases hcb : c.toNat < b.toNat
          · simp [hbc, hcb] at h2
          · simp [show a.toNat < c.toNat by omega]
      · by_cases hba : b.toNat < a.toNat
        · simp [hab, hba] at h1
        · simp only [if_neg hab, if_neg hba] at h1
          by_cases hbc : b.toNat < c.toNat
          · simp [show a.toNat < c.toNat by omega]
          · by_cases hcb : c.toNat < b.toNat
            · simp [hbc, hcb] at h2
            · simp only [if_neg hbc, if_neg hcb] at h2
              have hac : ¬ a.toNat < c.toNat := by omega
              have hca : ¬ c.toNat < a.toNat := by omega
              simp only [if_neg hac, if_neg hca]
              exact lexLe_trans h1 h2

instance : IsTotal String SLe := ⟨fun a b => lexLe_total a.toList b.toList⟩

instance : IsTrans String SLe := ⟨fun _ _ _ h1 h2 => lexLe_trans h1 h2⟩

/-- Go sort.Strings (ascending lexicographic sort of a string slice). -/
def sortStrings (l : List String) : List String :=
  List.insertionSort SLe l

theorem mem_sortStrings {x : String} {l : List String} :
    x ∈ sortStrings l ↔ x ∈ l :=
  (List.perm_insertionSort SLe l).mem_iff

theorem sorted_sortStrings (l : List String) : List.Sorted SLe (sortStrings l) :=
  List.sorted_insertionSort SLe l

/-- model.Action: the three action kinds the collection distinguishes. -/
inductive Action where
  | create
  | update
  | destroy
deriving DecidableEq

/-- model.ResourceCollection: three address sets (one per action), the
summary flags and the three summary counters. -/
structure ResourceCollection where
  create : List String
  update : List String
  destroy : List String
  foundSummary : Bool
  summaryAdds : Nat
  summaryChanges : Nat
  summaryDestroys : Nat
  hasDetailedResources : Bool
deriving DecidableEq

/-- The address set stored under a given action key. -/
def resFor (rc : ResourceCollection) : Action → List String
  | .create => rc.create
  | .update => rc.update
  | .destroy => rc.destroy

/-- model.NewResourceCollection. -/
def NewResourceCollection : ResourceCollection :=
  ⟨[], [], [], false, 0, 0, 0, false⟩

/-- Insertion into a Go map used as a set: a no-op when the key is present. -/
def addToSet (l : List String) (r : String) : List String :=
  if r ∈ l then l else l ++ [r]

/-- model.AddResource: insert the address into the action's set and mark
hasDetailedResources. -/
def AddResource (rc : ResourceCollection) (a : Action) (r : String) :
    ResourceCollection :=
  match a with
  | .create => { rc with create := addToSet rc.create r, hasDetailedResources := true }
  | .update => { rc with update := addToSet rc.update r, hasDetailedResources := true }
  | .destroy => { rc with destroy := addToSet rc.destroy r, hasDetailedResources := true }

/-- model.GetResourcesForAction: the action's addresses, sorted. -/
def GetResourcesForAction (rc : ResourceCollection) (a : Action) : List String :=
  sortStrings (resFor rc a)

/-- model.CountResourcesForAction: the size of the action's address set. -/
def CountResourcesForAction (rc : ResourceCollection) (a : Action) : Nat :=
  (resFor rc a).length

/-- model.TotalChanges. -/
def TotalChanges (rc : ResourceCollection) : Nat :=
  if rc.hasDetailedResources then
    if rc.foundSummary then
      rc.summaryAdds + rc.summaryChanges + rc.summaryDestroys
    else
      rc.create.length + rc.update.length + rc.destroy.length
  else
    rc.summaryAdds + rc.summaryChanges + rc.summaryDestroys

/-- model.isModuleResource. -/
def isModuleResource (r : String) : Bool :=
  strStartsWith r "module."

/-- Go strings.Split with separator "." (always returns at least one piece;
pieces can be empty). -/
def splitOnDot : List Char → List (List Char)
  | [] => [[]]
  | c :: cs =>
      if c = '.' then [] :: splitOnDot cs
      else
        match splitOnDot cs with
        | [] => [[c]]
        | g :: gs => (c :: g) :: gs

/-- model.ExtractResourceType: "module" for module addresses, the first
dot-delimited segment when there are at least two segments, else "unknown". -/
def ExtractResourceType (resource : String) : String :=
  if isModuleResource resource then "module"
  else
    match splitOnDot resource.toList with
    | p :: _ :: _ => String.mk p
    | _ => "unknown"

/-- The grouping key ResourcesByType files an address under: module
addresses go to the dedicated "module" group, the rest to their extracted
type. -/
def typeKey (res : String) : String :=
  if isModuleResource res then "module" else ExtractResourceType res

/-- Appending one address to the group of its key inside an association
list of groups (the Go map append in ResourcesByType). -/
def insertGroup (m : List (String × List String)) (k v : String) :
    List (String × List String) :=
  match m with
  | [] => [(k, [v])]
  | (k', vs) :: rest =>
      if k' = k then (k', vs ++ [v]) :: rest else (k', vs) :: insertGroup rest k v

/-- The grouping loop of model.ResourcesByType. -/
def groupLoop (m : List (String × List String)) :
    List String → List (String × List String)
  | [] => m
  | r :: rest => groupLoop (insertGroup m (typeKey r) r) rest

/-- model.ResourcesByType: group the action's addresses by type key, then
sort each group. The Go map is represented as an association list with
distinct keys; lookupGroup below is the map read. -/
def ResourcesByType (rc : ResourceCollection) (a : Action) :
    List (String × List String) :=
  (groupLoop [] (resFor rc a)).map (fun p => (p.1, sortStrings p.2))

/-- Reading a Go map of groups: absent keys yield the empty (nil) slice. -/
def lookupGroup : List (String × List String) → String → List String
  | [], _ => []
  | (k, vs) :: rest, t => if k = t then vs else lookupGroup rest t

/-- One record of the plan's resource_changes array, restricted to the
fields the parser logic reads (address, mode, change.actions). The unused
schema fields (type, name, provider_name, before, after) are not modeled. -/
structure ResourceChange where
  address : String
  mode : String
  actions : List String
deriving DecidableEq

/-- parser.isNoOpAction: exactly one action and it is "no-op". -/
def isNoOpAction (actions : List String) : Bool :=
  match actions with
  | [a] => a = "no-op"
  | _ => false

/-- parser.isReplacement: some action is "replace" (the Go for-loop). -/
def isReplacement : List String → Bool
  | [] => false
  | a :: rest => a = "replace" || isReplacement rest

/-- parser.processStandardActions: the per-verb switch over the action list. -/
def processStandardActions (rc : ResourceCollection) (address : String) :
    List String → ResourceCollection
  | [] => rc
  | a :: rest =>
      let rc' :=
        if a = "create" then AddResource rc .create address
        else if a = "update" then AddResource rc .update address
        else if a = "delete" then AddResource rc .destroy address
        else rc
      processStandardActions rc' address rest

/-- parser.processResourceChanges: skip data records and no-op records,
treat replacements specially, process the rest verb by verb. -/
def processResourceChanges (rc : ResourceCollection) :
    List ResourceChange → ResourceCollection
  | [] => rc
  | r :: rest =>
      let rc' :=
        if r.mode = "data" then rc
        else if isNoOpAction r.actions then rc
        else if isReplacement r.actions then
          AddResource (AddResource rc .create r.address) .destroy r.address
        else processStandardActions rc r.address r.actions
      processResourceChanges rc' rest

/-- parser.countActionsForSummary: the per-verb switch bumping the counters. -/
def countActionsForSummary (rc : ResourceCollection) :
    List String → ResourceCollection
  | [] => rc
  | a :: rest =>
      let rc' :=
        if a = "create" then { rc with summaryAdds := rc.summaryAdds + 1 }
        else if a = "update" then { rc with summaryChanges := rc.summaryChanges + 1 }
        else if a = "delete" then { rc with summaryDestroys := rc.summaryDestroys + 1 }
        else rc
      countActionsForSummary rc' rest

/-- The counting loop of parser.calculateSummaryValues (data records are
skipped; a replacement counts one add and one destroy; otherwise each
create/update/delete verb counts one). -/
def calculateSummaryLoop (rc : ResourceCollection) :
    List ResourceChange → ResourceCollection
  | [] => rc
  | r :: rest =>
      let rc' :=
        if r.mode = "data" then rc
        else if isReplacement r.actions then
          { rc with summaryAdds := rc.summaryAdds + 1,
                    summaryDestroys := rc.summaryDestroys + 1 }
        else countActionsForSummary rc r.actions
      calculateSummaryLoop rc' rest

/-- parser.calculateSummaryValues: set foundSummary, reset the counters,
then run the counting loop. -/
def calculateSummaryValues (rc : ResourceCollection)
    (changes : List ResourceChange) : ResourceCollection :=
  calculateSummaryLoop
    { rc with foundSummary := true, summaryAdds := 0, summaryChanges := 0,
              summaryDestroys := 0 } changes

/-- The collection ParseTerraformPlan returns on its full-schema path:
process the changes, compute the summary, then mark hasDetailedResources. -/
def buildCollection (changes : List ResourceChange) : ResourceCollection :=
  let c1 := processResourceChanges NewResourceCollection changes
  let c2 := calculateSummaryValues c1 changes
  { c2 with hasDetailedResources := true }

/-- A JSON document, as the input to the two json.Unmarshal calls of the
parser. Numbers are restricted to integers (the only numbers this program
reads or writes). -/
inductive Json where
  | null
  | bool (b : Bool)
  | num (n : Int)
  | str (s : String)
  | arr (elems : List Json)
  | obj (fields : List (String × Json))

/-- Reading a key of a JSON object (first match; the documents handled
here have distinct keys). -/
def lookupField : List (String × Json) → String → Option Json
  | [], _ => none
  | (k, v) :: rest, key => if k = key then some v else lookupField rest key

/-- Go json.Unmarshal into a string destination: a JSON string decodes to
itself, null leaves the zero value "", anything else is a type error. -/
def decodeString : Json → Option String
  | .str s => some s
  | .null => some ""
  | _ => none

/-- Decoding a string-typed struct field: an absent key leaves the zero
value "". -/
def decodeStringField (fields : List (String × Json)) (key : String) :
    Option String :=
  match lookupField fields key with
  | none => some ""
  | some v => decodeString v

/-- Decoding the elements of a JSON array into strings (any non-string
element is a type error). -/
def decodeStringElems : List Json → Option (List String)
  | [] => some []
  | e :: rest =>
      match decodeString e, decodeStringElems rest with
      | some s, some l => some (s :: l)
      | _, _ => none

/-- Go json.Unmarshal into a []string destination. -/
def decodeStringList : Json → Option (List String)
  | .null => some []
  | .arr es => decodeStringElems es
  | _ => none

/-- Decoding the change object of a record down to its actions list. -/
def decodeChangeActions : Json → Option (List String)
  | .null => some []
  | .obj fields =>
      (match lookupField fields "actions" with
       | none => some []
       | some v => decodeStringList v)
  | _ => none

/-- Decoding one resource_changes record against the full schema: the
string fields type, name and provider_name are type-checked even though
the parser never reads them (a mismatch fails the whole unmarshal). -/
def decodeResourceChange : Json → Option ResourceChange
  | .null => some ⟨"", "", []⟩
  | .obj fields => do
      let a ← decodeStringField fields "address"
      let m ← decodeStringField fields "mode"
      let _ ← decodeStringField fields "type"
      let _ ← decodeStringField fields "name"
      let _ ← decodeStringField fields "provider_name"
      let acts ←
        (match lookupField fields "change" with
         | none => some []
         | some v => decodeChangeActions v)
      some ⟨a, m, acts⟩
  | _ => none

/-- Decoding one record against the simplified fallback schema (only
address, mode and change.actions exist there). -/
def decodeSimpleChange : Json → Option ResourceChange
  | .null => some ⟨"", "", []⟩
  | .obj fields => do
      let a ← decodeStringField fields "address"
      let m ← decodeStringField fields "mode"
      let acts ←
        (match lookupField fields "change" with
         | none => some []
         | some v => decodeChangeActions v)
      some ⟨a, m, acts⟩
  | _ => none

/-- Decoding every element of a record array. -/
def decodeElems (f : Json → Option ResourceChange) :
    List Json → Option (List ResourceChange)
  | [] => some []
  | e :: rest =>
      match f e, decodeElems f rest with
      | some x, some xs => some (x :: xs)
      | _, _ => none

/-- Go json.Unmarshal into a record slice destination. -/
def decodeChangeList (f : Json → Option ResourceChange) :
    Json → Option (List ResourceChange)
  | .null => some []
  | .arr es => decodeElems f es
  | _ => none

/-- Go json.Unmarshal of a JSON value into parser.TerraformPlanJSON,
restricted to the resource_changes field — the only field the parser
reads. The scalar top-level schema fields are type-checked; type
mismatches inside the other nested schema fields (planned_values,
output_changes, prior_state, configuration) are not modeled, and no claim
below feeds such an input. Unknown keys are ignored, absent keys leave
zero values, exactly as encoding/json does. -/
def unmarshalFull : Json → Option (List ResourceChange)
  | .null => some []
  | .obj fields => do
      let _ ← decodeStringField fields "format_version"
      let _ ← decodeStringField fields "terraform_version"
      (match lookupField fields "resource_changes" with
       | none => some []
       | some v => decodeChangeList decodeResourceChange v)
  | _ => none

/-- The per-verb switch inside processSimplifiedResourceChanges. -/
def simplifiedStandardLoop (rc : ResourceCollection) (address : String) :
    List String → ResourceCollection
  | [] => rc
  | a :: rest =>
      let rc' :=
        if a = "create" then
          { AddResource rc .create address with summaryAdds := rc.summaryAdds + 1 }
        else if a = "update" then
          { AddResource rc .update address with summaryChanges := rc.summaryChanges + 1 }
        else if a = "delete" then
          { AddResource rc .destroy address with summaryDestroys := rc.summaryDestroys + 1 }
        else rc
      simplifiedStandardLoop rc' address rest

/-- parser.processSimplifiedResourceChanges: the fallback path fuses bucket
insertion and summary counting; note it has no no-op skip. -/
def processSimplifiedResourceChanges (rc : ResourceCollection) :
    List ResourceChange → ResourceCollection
  | [] => rc
  | r :: rest =>
      let rc' :=
        if r.mode = "data" then rc
        else if isReplacement r.actions then
          { AddResource (AddResource rc .create r.address) .destroy r.address with
              summaryAdds := rc.summaryAdds + 1,
              summaryDestroys := rc.summaryDestroys + 1 }
        else simplifiedStandardLoop rc r.address r.actions
      processSimplifiedResourceChanges rc' rest

/-- The error text of the text-format branch of ParseTerraformPlan. -/
def textFormatErr : String :=
  "input appears to be text format, not JSON. Please use 'terraform show -json tfplan' to generate JSON output"

/-- Representative of the detail text encoding/json produces when a
non-object is unmarshalled into map[string]json.RawMessage; the Go text is
dynamic but never mentions any terraform command. -/
def mapTypeErrDetail : String :=
  "json: cannot unmarshal value into Go value of type map[string]json.RawMessage"

/-- Representative of the detail text encoding/json produces when the
resource_changes value does not decode as a record slice. -/
def sliceTypeErrDetail : String :=
  "json: cannot unmarshal value into Go value of type []struct"

/-- parser.parseResourceChangesOnly on a valid JSON document: a non-object
fails the map unmarshal; a missing resource_changes key is its own error; a
malformed record array is its own error; otherwise the simplified records
are processed and both flags are set. JSON null unmarshals into a nil map,
whose lookup then fails with the missing-key error. -/
def parseResourceChangesOnly (j : Json) : Except String ResourceCollection :=
  match j with
  | .null => .error "couldn't find resource_changes in the JSON"
  | .obj fields =>
      match lookupField fields "resource_changes" with
      | none => .error "couldn't find resource_changes in the JSON"
      | some v =>
          match decodeChangeList decodeSimpleChange v with
          | none => .error ("error parsing resource changes: " ++ sliceTypeErrDetail)
          | some rcs =>
              let c := processSimplifiedResourceChanges NewResourceCollection rcs
              .ok { c with foundSummary := true, hasDetailedResources := true }
  | _ => .error ("error parsing JSON: " ++ mapTypeErrDetail)

/-- parser.isTextPlan. -/
def isTextPlan (s : String) : Bool :=
  strStartsWith s "Terraform will perform"

/-- parser.ParseTerraformPlan on an input that is valid JSON (a valid JSON
byte stream never has the legacy text marker as a leading segment, so the
text-plan branch cannot fire): try the full schema, fall back to
parseResourceChangesOnly. -/
def ParseTerraformPlanJson (j : Json) : Except String ResourceCollection :=
  match unmarshalFull j with
  | some changes => .ok (buildCollection changes)
  | none => parseResourceChangesOnly j

/-- The byte stream handed to ParseTerraformPlan: its raw text, the JSON
value it parses to (none when it is not valid JSON), and the syntax-error
text encoding/json reports for it in that case. -/
structure PlanInput where
  raw : String
  json : Option Json
  jsonErrMsg : String

/-- parser.ParseTerraformPlan: the text-plan check, then the full parse
with fallback. On a stream that is not valid JSON both the full unmarshal
and the fallback's map unmarshal fail with the same syntax error, which
parseResourceChangesOnly wraps as an "error parsing JSON" message. -/
def ParseTerraformPlan (i : PlanInput) : Except String ResourceCollection :=
  if isTextPlan i.raw then .error textFormatErr
  else
    match i.json with
    | none => .error ("error parsing JSON: " ++ i.jsonErrMsg)
    | some j => ParseTerraformPlanJson j

/-- util.ColorReset. -/
def ColorReset : String := "\x1b[0m"

/-- util.ColorRed. -/
def ColorRed : String := "\x1b[31m"

/-- util.ColorGreen. -/
def ColorGreen : String := "\x1b[32m"

/-- util.ColorYellow. -/
def ColorYellow : String := "\x1b[33m"

/-- util.ColorBold. -/
def ColorBold : String := "\x1b[1m"

/-- util.ColorizeText. -/
def ColorizeText (text color : String) (useColors : Bool) : String :=
  if useColors then color ++ text ++ ColorReset else text

/-- util.BoldText. -/
def BoldText (text : String) (useColors : Bool) : String :=
  ColorizeText text ColorBold useColors

/-- util.GetColorForAction. -/
def GetColorForAction : Action → String
  | .create => ColorGreen
  | .update => ColorYellow
  | .destroy => ColorRed

/-- util.GetSymbolForAction. -/
def GetSymbolForAction : Action → String
  | .create => "+"
  | .update => "~"
  | .destroy => "-"

/-- formatter.Options (Verbose is never read by the formatting functions
modeled here). -/
structure Options where
  useColors : Bool
  verbose : Bool

/-- formatter.formatTextHeader. -/
def formatTextHeader (opts : Options) : String :=
  "\n" ++
  (if opts.useColors then BoldText "=== TERRAFORM PLAN SUMMARY ===" opts.useColors
   else "=== TERRAFORM PLAN SUMMARY ===") ++ "\n\n"

/-- formatter.getSortedResourceTypes: the sorted key list of the type map. -/
def getSortedResourceTypes (m : List (String × List String)) : List String :=
  sortStrings (m.map Prod.fst)

/-- formatter.hasModuleResources. -/
def hasModuleResources (m : List (String × List String)) : Bool :=
  !(lookupGroup m "module").isEmpty

/-- formatter.filterOutModuleType. -/
def filterOutModuleType (types : List String) : List String :=
  types.filter (fun t => !(t == "module"))

/-- One per-resource output line ("    %s%s %s%s\n" with color and symbol). -/
def formatResourceLine (color symbol resource : String) (useColors : Bool) :
    String :=
  if useColors then "    " ++ color ++ symbol ++ " " ++ resource ++ ColorReset ++ "\n"
  else "    " ++ symbol ++ " " ++ resource ++ "\n"

/-- formatter.formatModuleResourcesText. -/
def formatModuleResourcesText (m : List (String × List String))
    (color symbol : String) (opts : Options) : String :=
  (if opts.useColors then "  " ++ ColorBold ++ "# MODULE RESOURCES:" ++ ColorReset ++ "\n"
   else "  # MODULE RESOURCES:\n") ++
  String.join ((lookupGroup m "module").map
    (fun r => formatResourceLine color symbol r opts.useColors)) ++
  "\n"

/-- formatter.formatResourcesByTypeText (empty groups are skipped). -/
def formatResourcesByTypeText (types : List (String))
    (m : List (String × List String)) (color symbol : String)
    (opts : Options) : String :=
  String.join (types.map (fun t =>
    let rs := lookupGroup m t
    if rs.isEmpty then ""
    else
      (if opts.useColors then
         "  " ++ ColorBold ++ "# " ++ t.toUpper ++ " RESOURCES:" ++ ColorReset ++ "\n"
       else "  # " ++ t.toUpper ++ " RESOURCES:\n") ++
      String.join (rs.map (fun r => formatResourceLine color symbol r opts.useColors)) ++
      "\n"))

/-- formatter.formatActionResourcesText: nothing is written for an action
with no resources; module groups are rendered first, then the remaining
types in sorted order. -/
def formatActionResourcesText (rc : ResourceCollection) (a : Action)
    (actionLabel : String) (opts : Options) : String :=
  if (GetResourcesForAction rc a).isEmpty then ""
  else
    let color := GetColorForAction a
    let symbol := GetSymbolForAction a
    let m := ResourcesByType rc a
    let types := getSortedResourceTypes m
    (if opts.useColors then BoldText (actionLabel ++ ":") opts.useColors
     else actionLabel ++ ":") ++ "\n" ++
    (if hasModuleResources m then formatModuleResourcesText m color symbol opts
     else "") ++
    formatResourcesByTypeText
      (if hasModuleResources m then filterOutModuleType types else types)
      m color symbol opts

/-- formatter.formatSummaryOnlyText: each non-zero counter prints one
"(details not available)" line; zero counters are omitted. -/
def formatSummaryOnlyText (rc : ResourceCollection) (opts : Options) : String :=
  (if rc.summaryAdds > 0 then
     if opts.useColors then
       ColorBold ++ "RESOURCES TO CREATE:" ++ ColorReset ++ " " ++
         toString rc.summaryAdds ++ " (details not available)\n\n"
     else "RESOURCES TO CREATE: " ++ toString rc.summaryAdds ++
       " (details not available)\n\n"
   else "") ++
  (if rc.summaryChanges > 0 then
     if opts.useColors then
       ColorBold ++ "RESOURCES TO UPDATE:" ++ ColorReset ++ " " ++
         toString rc.summaryChanges ++ " (details not available)\n\n"
     else "RESOURCES TO UPDATE: " ++ toString rc.summaryChanges ++
       " (details not available)\n\n"
   else "") ++
  (if rc.summaryDestroys > 0 then
     if opts.useColors then
       ColorBold ++ "RESOURCES TO DESTROY:" ++ ColorReset ++ " " ++
         toString rc.summaryDestroys ++ " (details not available)\n\n"
     else "RESOURCES TO DESTROY: " ++ toString rc.summaryDestroys ++
       " (details not available)\n\n"
   else "")

/-- formatter.formatTotalChangesText. -/
def formatTotalChangesText (rc : ResourceCollection) (opts : Options) : String :=
  if opts.useColors then
    ColorBold ++ "TOTAL CHANGES:" ++ ColorReset ++ " " ++
      toString (TotalChanges rc) ++ "\n"
  else "TOTAL CHANGES: " ++ toString (TotalChanges rc) ++ "\n"

/-- formatter.formatPlanSummaryText. -/
def formatPlanSummaryText (rc : ResourceCollection) (opts : Options) : String :=
  let planSummary := "Plan: " ++ toString rc.summaryAdds ++ " to add, " ++
    toString rc.summaryChanges ++ " to change, " ++
    toString rc.summaryDestroys ++ " to destroy."
  if opts.useColors then
    "\n" ++ ColorBold ++ "Plan Summary:" ++ ColorReset ++ " " ++ planSummary ++ "\n"
  else "\nPlan Summary: " ++ planSummary ++ "\n"

/-- formatter.FormatText (its Go error result is always nil, so the model
returns the string directly). -/
def FormatText (rc : ResourceCollection) (opts : Options) : String :=
  formatTextHeader opts ++
  (if rc.hasDetailedResources then
     formatActionResourcesText rc .create "RESOURCES TO CREATE" opts ++
     formatActionResourcesText rc .update "RESOURCES TO UPDATE" opts ++
     formatActionResourcesText rc .destroy "RESOURCES TO DESTROY" opts
   else if rc.foundSummary then formatSummaryOnlyText rc opts
   else "") ++
  formatTotalChangesText rc opts ++
  (if rc.foundSummary then formatPlanSummaryText rc opts else "")

/-- formatter.FormatJSON, modeled at the JSON-value level (MarshalIndent
only adds whitespace); the timestamp time.Now() produces is a parameter.
Field order follows the Go struct. -/
def FormatJSON (rc : ResourceCollection) (timestamp : String) : Json :=
  .obj
    [ ("create", .arr ((GetResourcesForAction rc .create).map Json.str)),
      ("update", .arr ((GetResourcesForAction rc .update).map Json.str)),
      ("destroy", .arr ((GetResourcesForAction rc .destroy).map Json.str)),
      ("summary", .obj
        [ ("total", .num (Int.ofNat (TotalChanges rc))),
          ("adds", .num (Int.ofNat rc.summaryAdds)),
          ("changes", .num (Int.ofNat rc.summaryChanges)),
          ("destroys", .num (Int.ofNat rc.summaryDestroys)) ]),
      ("has_detailed_resources", .bool rc.hasDetailedResources),
      ("found_summary", .bool rc.foundSummary),
      ("timestamp", .str timestamp) ]

/-- The JSON object key FormatJSON uses for an action's address array. -/
def actionJsonKey : Action → String
  | .create => "create"
  | .update => "update"
  | .destroy => "destroy"

/-- Reading back one of the address arrays from a formatted JSON object. -/
def getStringArr (j : Json) (key : String) : Option (List String) :=
  match j with
  | .obj fields =>
      (match lookupField fields key with
       | some v => decodeStringList v
       | none => none)
  | _ => none

theorem mem_addToSet {x a : String} {l : List String} :
    x ∈ addToSet l a ↔ x = a ∨ x ∈ l := by
  unfold addToSet
  split_ifs with h
  · constructor
    · intro hx; exact Or.inr hx
    · rintro (rfl | hx); exacts [h, hx]
  · simp [List.mem_append, or_comm]

theorem addToSet_of_mem {a : String} {l : List String} (h : a ∈ l) :
    addToSet l a = l := if_pos h

theorem addToSet_of_not_mem {a : String} {l : List String} (h : a ∉ l) :
    addToSet l a = l ++ [a] := if_neg h

theorem addToSet_idem (l : List String) (a : String) :
    addToSet (addToSet l a) a = addToSet l a :=
  addToSet_of_mem (mem_addToSet.mpr (Or.inl rfl))

theorem addToSet_length_of_not_mem {a : String} {l : List String} (h : a ∉ l) :
    (addToSet l a).length = l.length + 1 := by
  rw [addToSet_of_not_mem h]; simp

theorem isReplacement_iff {acts : List String} :
    isReplacement acts = true ↔ "replace" ∈ acts := by
  induction acts with
  | nil => simp [isReplacement]
  | cons a rest ih =>
      show (decide (a = "replace") || isReplacement rest) = true ↔ "replace" ∈ a :: rest
      rw [Bool.or_eq_true, decide_eq_true_eq, ih, List.mem_cons]
      exact or_congr_left eq_comm

theorem isNoOpAction_iff {acts : List String} :
    isNoOpAction acts = true ↔ acts = ["no-op"] := by
  match acts with
  | [] => simp [isNoOpAction]
  | [a] => simp [isNoOpAction]
  | a :: b :: rest => simp [isNoOpAction]

-- How one step of the per-verb switch acts on each bucket.
theorem chainStep_create (rc : ResourceCollection) (addr a : String)
    (h : a ≠ "create") :
    (if a = "create" then AddResource rc .create addr
     else if a = "update" then AddResource rc .update addr
     else if a = "delete" then AddResource rc .destroy addr
     else rc).create = rc.create := by
  rw [if_neg h]
  by_cases h2 : a = "update"
  · rw [if_pos h2]; rfl
  · rw [if_neg h2]
    by_cases h3 : a = "delete"
    · rw [if_pos h3]; rfl
    · rw [if_neg h3]

theorem chainStep_update (rc : ResourceCollection) (addr a : String)
    (h : a ≠ "update") :
    (if a = "create" then AddResource rc .create addr
     else if a = "update" then AddResource rc .update addr
     else if a = "delete" then AddResource rc .destroy addr
     else rc).update = rc.update := by
  by_cases h1 : a = "create"
  · rw [if_pos h1]; rfl
  · rw [if_neg h1, if_neg h]
    by_cases h3 : a = "delete"
    · rw [if_pos h3]; rfl
    · rw [if_neg h3]

theorem chainStep_destroy (rc : ResourceCollection) (addr a : String)
    (h : a ≠ "delete") :
    (if a = "create" then AddResource rc .create addr
     else if a = "update" then AddResource rc .update addr
     else if a = "delete" then AddResource rc .destroy addr
     else rc).destroy = rc.destroy := by
  by_cases h1 : a = "create"
  · rw [if_pos h1]; rfl
  · rw [if_neg h1]
    by_cases h2 : a = "update"
    · rw [if_pos h2]; rfl
    · rw [if_neg h2, if_neg h]

-- Normalized form of the per-verb loop, one bucket at a time: a bucket
-- gains the address exactly when its verb occurs in the action list.
theorem psa_create (addr : String) : ∀ (acts : List String) (rc : ResourceCollection),
    (processStandardActions rc addr acts).create =
      if "create" ∈ acts then addToSet rc.create addr else rc.create
  | [], rc => by
      show rc.create = if "create" ∈ ([] : List String) then addToSet rc.create addr else rc.create
      rw [if_neg (List.not_mem_nil _)]
  | a :: rest, rc => by
      simp only [processStandardActions]
      rw [psa_create addr rest]
      by_cases h1 : a = "create"
      · rw [if_pos h1]
        subst h1
        rw [if_pos (List.mem_cons_self _ _)]
        show (if "create" ∈ rest then addToSet (addToSet rc.create addr) addr
              else addToSet rc.create addr) = addToSet rc.create addr
        by_cases hm : ("create" : String) ∈ rest
        · rw [if_pos hm, addToSet_idem]
        · rw [if_neg hm]
      · have hmem : (("create" : String) ∈ a :: rest) ↔ (("create" : String) ∈ rest) := by
          rw [List.mem_cons]
          exact or_iff_right (fun he => h1 he.symm)
        rw [chainStep_create rc addr a h1]
        simp only [hmem]

theorem psa_update (addr : String) : ∀ (acts : List String) (rc : ResourceCollection),
    (processStandardActions rc addr acts).update =
      if "update" ∈ acts then addToSet rc.update addr else rc.update
  | [], rc => by
      show rc.update = if "update" ∈ ([] : List String) then addToSet rc.update addr else rc.update
      rw [if_neg (List.not_mem_nil _)]
  | a :: rest, rc => by
      simp only [processStandardActions]
      rw [psa_update addr rest]
      by_cases h2 : a = "update"
      · rw [if_neg (fun hc => absurd (h2.symm.trans hc) (by decide)), if_pos h2]
        subst h2
        rw [if_pos (List.mem_cons_self _ _)]
        show (if "update" ∈ rest then addToSet (addToSet rc.update addr) addr
              else addToSet rc.update addr) = addToSet rc.update addr
        by_cases hm : ("update" : String) ∈ rest
        · rw [if_pos hm, addToSet_idem]
        · rw [if_neg hm]
      · have hmem : (("update" : String) ∈ a :: rest) ↔ (("update" : String) ∈ rest) := by
          rw [List.mem_cons]
          exact or_iff_right (fun he => h2 he.symm)
        rw [chainStep_update rc addr a h2]
        simp only [hmem]

theorem psa_destroy (addr : String) : ∀ (acts : List String) (rc : ResourceCollection),
    (processStandardActions rc addr acts).destroy =
      if "delete" ∈ acts then addToSet rc.destroy addr else rc.destroy
  | [], rc => by
      show rc.destroy = if "delete" ∈ ([] : List String) then addToSet rc.destroy addr else rc.destroy
      rw [if_neg (List.not_mem_nil _)]
  | a :: rest, rc => by
      simp only [processStandardActions]
      rw [psa_destroy addr rest]
      by_cases h3 : a = "delete"
      · rw [if_neg (fun hc => absurd (h3.symm.trans hc) (by decide)),
          if_neg (fun hc => absurd (h3.symm.trans hc) (by decide)), if_pos h3]
        subst h3
        rw [if_pos (List.mem_cons_self _ _)]
        show (if "delete" ∈ rest then addToSet (addToSet rc.destroy addr) addr
              else addToSet rc.destroy addr) = addToSet rc.destroy addr
        by_cases hm : ("delete" : String) ∈ rest
        · rw [if_pos hm, addToSet_idem]
        · rw [if_neg hm]
      · have hmem : (("delete" : String) ∈ a :: rest) ↔ (("delete" : String) ∈ rest) := by
          rw [List.mem_cons]
          exact or_iff_right (fun he => h3 he.symm)
        rw [chainStep_destroy rc addr a h3]
        simp only [hmem]

-- The summary-counting loops never touch the buckets or the foundSummary flag.
theorem cafs_create : ∀ (acts : List String) (rc : ResourceCollection),
    (countActionsForSummary rc acts).create = rc.create
  | [], _ => rfl
  | a :: rest, rc => by
      simp only [countActionsForSummary]
      rw [cafs_create rest]
      split_ifs <;> rfl

theorem cafs_update : ∀ (acts : List String) (rc : ResourceCollection),
    (countActionsForSummary rc acts).update = rc.update
  | [], _ => rfl
  | a :: rest, rc => by
      simp only [countActionsForSummary]
      rw [cafs_update rest]
      split_ifs <;> rfl

theorem cafs_destroy : ∀ (acts : List String) (rc : ResourceCollection),
    (countActionsForSummary rc acts).destroy = rc.destroy
  | [], _ => rfl
  | a :: rest, rc => by
      simp only [countActionsForSummary]
      rw [cafs_destroy rest]
      split_ifs <;> rfl

theorem cafs_found : ∀ (acts : List String) (rc : ResourceCollection),
    (countActionsForSummary rc acts).foundSummary = rc.foundSummary
  | [], _ => rfl
  | a :: rest, rc => by
      simp only [countActionsForSummary]
      rw [cafs_found rest]
      split_ifs <;> rfl

theorem calcLoop_create : ∀ (l : List ResourceChange) (rc : ResourceCollection),
    (calculateSummaryLoop rc l).create = rc.create
  | [], _ => rfl
  | r :: rest, rc => by
      simp only [calculateSummaryLoop]
      rw [calcLoop_create rest]
      split_ifs <;> first | rfl | exact cafs_create r.actions rc

theorem calcLoop_update : ∀ (l : List ResourceChange) (rc : ResourceCollection),
    (calculateSummaryLoop rc l).update = rc.update
  | [], _ => rfl
  | r :: rest, rc => by
      simp only [calculateSummaryLoop]
      rw [calcLoop_update rest]
      split_ifs <;> first | rfl | exact cafs_update r.actions rc

theorem calcLoop_destroy : ∀ (l : List ResourceChange) (rc : ResourceCollection),
    (calculateSummaryLoop rc l).destroy = rc.destroy
  | [], _ => rfl
  | r :: rest, rc => by
      simp only [calculateSummaryLoop]
      rw [calcLoop_destroy rest]
      split_ifs <;> first | rfl | exact cafs_destroy r.actions rc

theorem calcLoop_found : ∀ (l : List ResourceChange) (rc : ResourceCollection),
    (calculateSummaryLoop rc l).foundSummary = rc.foundSummary
  | [], _ => rfl
  | r :: rest, rc => by
      simp only [calculateSummaryLoop]
      rw [calcLoop_found rest]
      split_ifs <;> first | rfl | exact cafs_found r.actions rc

/-- C3: a non-data record whose action list includes the verb replace has
its address added to both the Create and the Destroy bucket exactly once
(the address is appended once to each set, assuming it was absent), and
the per-verb loop is skipped, so the Update bucket is untouched. -/
theorem C3_replacement_record (rc : ResourceCollection) (r : ResourceChange)
    (hmode : r.mode ≠ "data") (hrep : "replace" ∈ r.actions)
    (hc : r.address ∉ rc.create) (hd : r.address ∉ rc.destroy) :
    (processResourceChanges rc [r]).create = rc.create ++ [r.address] ∧
    (processResourceChanges rc [r]).destroy = rc.destroy ++ [r.address] ∧
    (processResourceChanges rc [r]).update = rc.update := by
  have hnoop : isNoOpAction r.actions = false := by
    rcases h : isNoOpAction r.actions
    · rfl
    · exfalso
      rw [isNoOpAction_iff.mp h] at hrep
      simp at hrep
  have hrepb : isReplacement r.actions = true := isReplacement_iff.mpr hrep
  simp only [processResourceChanges, if_neg hmode, hnoop, Bool.false_eq_true,
    if_false, hrepb, if_true]
  simp [AddResource, addToSet_of_not_mem hc, addToSet_of_not_mem hd]

/-- C3 witness: a concrete replacement record on the empty collection. -/
theorem C3_replacement_record_witness :
    (processResourceChanges NewResourceCollection
        [⟨"aws_instance.web", "managed", ["replace"]⟩]).create =
      [] ++ ["aws_instance.web"] ∧
    (processResourceChanges NewResourceCollection
        [⟨"aws_instance.web", "managed", ["replace"]⟩]).destroy =
      [] ++ ["aws_instance.web"] ∧
    (processResourceChanges NewResourceCollection
        [⟨"aws_instance.web", "managed", ["replace"]⟩]).update = [] :=
  C3_replacement_record NewResourceCollection ⟨"aws_instance.web", "managed", ["replace"]⟩
    (by decide) (by decide) (by decide) (by decide)

/-- C10: an action verb other than create, update and delete (for example
read, or any unknown verb) contributes nothing: both the bucket loop and
the summary-counter loop treat it as a skip, and neither can fail (both
are total functions). -/
theorem C10_unknown_verb (rc : ResourceCollection) (addr v : String)
    (rest : List String) (h : v ∉ (["create", "update", "delete"] : List String)) :
    processStandardActions rc addr (v :: rest) = processStandardActions rc addr rest ∧
    countActionsForSummary rc (v :: rest) = countActionsForSummary rc rest := by
  have h1 : v ≠ "create" := by intro e; subst e; exact h (by decide)
  have h2 : v ≠ "update" := by intro e; subst e; exact h (by decide)
  have h3 : v ≠ "delete" := by intro e; subst e; exact h (by decide)
  constructor
  · simp only [processStandardActions, if_neg h1, if_neg h2, if_neg h3]
  · simp only [countActionsForSummary, if_neg h1, if_neg h2, if_neg h3]

/-- C10 witness: the verb read on a concrete state. -/
theorem C10_unknown_verb_witness :
    processStandardActions NewResourceCollection "aws_instance.web" ["read"] =
      processStandardActions NewResourceCollection "aws_instance.web" [] ∧
    countActionsForSummary NewResourceCollection ["read"] =
      countActionsForSummary NewResourceCollection [] :=
  C10_unknown_verb NewResourceCollection "aws_instance.web" "read" [] (by decide)

-- The full-schema result has both flags set.
theorem buildCollection_flags (l : List ResourceChange) :
    (buildCollection l).foundSummary = true ∧
    (buildCollection l).hasDetailedResources = true := by
  refine ⟨?_, rfl⟩
  show (calculateSummaryLoop _ l).foundSummary = true
  rw [calcLoop_found]

-- Any successful result of the fallback parser has both flags set.
theorem parseRCO_ok_flags (j : Json) (rc : ResourceCollection)
    (h : parseResourceChangesOnly j = .ok rc) :
    rc.foundSummary = true ∧ rc.hasDetailedResources = true := by
  rcases j with _ | b | n | s | es | fields <;>
    simp only [parseResourceChangesOnly] at h <;> try exact absurd h (by simp)
  split at h
  · exact absurd h (by simp)
  · split at h
    · exact absurd h (by simp)
    · rw [← Except.ok.inj h]
      exact ⟨rfl, rfl⟩

/-- C9: whenever ParseTerraformPlan succeeds — on the full-schema path or
on the resource_changes-only fallback — the returned collection has
FoundSummary and HasDetailedResources set, even for an empty
resource_changes list, so a successfully parsed plan never takes the
summary-only formatting path. -/
theorem C9_parse_ok_flags (i : PlanInput) (rc : ResourceCollection)
    (h : ParseTerraformPlan i = .ok rc) :
    rc.foundSummary = true ∧ rc.hasDetailedResources = true := by
  rcases i with ⟨raw, ojson, emsg⟩
  unfold ParseTerraformPlan at h
  by_cases ht : isTextPlan raw
  · rw [if_pos ht] at h
    exact absurd h (by simp)
  · rw [if_neg ht] at h
    rcases ojson with _ | j
    · exact absurd (show Except.error ("error parsing JSON: " ++ emsg) =
        Except.ok rc from h) (by simp)
    · have h' : ParseTerraformPlanJson j = Except.ok rc := h
      unfold ParseTerraformPlanJson at h'
      rcases hu : unmarshalFull j with _ | changes <;> rw [hu] at h'
      · exact parseRCO_ok_flags j rc h'
      · rw [← Except.ok.inj h']
        exact buildCollection_flags changes

/-- C9 witness: the concrete empty JSON object parses successfully and the
returned collection has both flags set. -/
theorem C9_parse_ok_flags_witness :
    (buildCollection []).foundSummary = true ∧
    (buildCollection []).hasDetailedResources = true :=
  C9_parse_ok_flags ⟨"\x7b\x7d", some (.obj []), ""⟩ (buildCollection []) rfl

theorem splitOnDot_ne_nil : ∀ l : List Char, splitOnDot l ≠ []
  | [] => by simp [splitOnDot]
  | c :: cs => by
      simp only [splitOnDot]
      split_ifs
      · simp
      · rcases h : splitOnDot cs with _ | ⟨g, gs⟩ <;> simp

theorem splitOnDot_no_dot : ∀ {l : List Char}, '.' ∉ l → splitOnDot l = [l]
  | [], _ => rfl
  | c :: cs, h => by
      have hc : c ≠ '.' := by
        intro e; subst e; exact h (List.mem_cons_self _ _)
      have hcs : '.' ∉ cs := fun m => h (List.mem_cons_of_mem _ m)
      simp only [splitOnDot, if_neg hc]
      rw [splitOnDot_no_dot hcs]

theorem listStartsWith_subset : ∀ {l p : List Char},
    listStartsWith l p = true → ∀ c ∈ p, c ∈ l
  | _, [], _, c, hc => absurd hc (List.not_mem_nil c)
  | [], q :: ps, h, _, _ => by simp [listStartsWith] at h
  | a :: as, q :: ps, h, c, hc => by
      simp only [listStartsWith, Bool.and_eq_true, decide_eq_true_eq] at h
      rcases List.mem_cons.mp hc with rfl | hcp
      · rw [← h.1]
        exact List.mem_cons_self a as
      · exact List.mem_cons_of_mem _ (listStartsWith_subset h.2 c hcp)

theorem stringMk_cons_ne (c : Char) (t : List Char) : String.mk (c :: t) ≠ "" := by
  intro h
  have := congrArg String.data h
  simp at this

/-- C6 counterexample: on the address ".foo" (a dot-initial address) the
function ExtractResourceType returns the empty string, so the claim that
it always returns a non-empty string is false. -/
theorem C6_counterexample : ExtractResourceType ".foo" = "" := by decide

/-- C6 amended: ExtractResourceType never fails (it is total) and returns
"module" for module-prefixed addresses, "unknown" when the address has no
dot, and the first dot-delimited segment for dotted addresses; the result
is non-empty for every address that does not begin with a dot (for a
dot-initial address the first segment, hence the result, is empty). -/
theorem C6_amended (s : String) :
    (strStartsWith s "module." = true → ExtractResourceType s = "module") ∧
    ('.' ∉ s.toList → ExtractResourceType s = "unknown") ∧
    (s.toList.head? ≠ some '.' → ExtractResourceType s ≠ "") := by
  refine ⟨?_, ?_, ?_⟩
  · intro h
    unfold ExtractResourceType isModuleResource
    rw [if_pos h]
  · intro h
    have hcond : ¬ (isModuleResource s = true) := by
      intro hb
      have hb' : listStartsWith s.toList ("module.".toList) = true := hb
      exact h (listStartsWith_subset hb' '.' (by decide))
    unfold ExtractResourceType
    rw [if_neg hcond, splitOnDot_no_dot h]
  · intro h
    by_cases hm : isModuleResource s = true
    · unfold ExtractResourceType
      rw [if_pos hm]
      decide
    · unfold ExtractResourceType
      rw [if_neg hm]
      rcases hl : s.toList with _ | ⟨c, cs⟩
      · decide
      · have hc : c ≠ '.' := by
          intro e; subst e; rw [hl] at h; exact h rfl
        simp only [splitOnDot, if_neg hc]
        rcases hsp : splitOnDot cs with _ | ⟨g, gs⟩
        · exact absurd hsp (splitOnDot_ne_nil cs)
        · rcases gs with _ | ⟨g2, gs2⟩
          · show ("unknown" : String) ≠ ""
            decide
          · show String.mk (c :: g) ≠ ""
            exact stringMk_cons_ne c g

/-- C6 witness: the three amended conclusions at concrete addresses. -/
theorem C6_amended_witness :
    ExtractResourceType "module.network.aws_vpc.main" = "module" ∧
    ExtractResourceType "localfile" = "unknown" ∧
    ExtractResourceType "aws_s3_bucket.logs" ≠ "" :=
  ⟨(C6_amended "module.network.aws_vpc.main").1 (by decide),
   (C6_amended "localfile").2.1 (by decide),
   (C6_amended "aws_s3_bucket.logs").2.2 (by decide)⟩

theorem lookupGroup_insertGroup : ∀ (m : List (String × List String)) (k v t : String),
    lookupGroup (insertGroup m k v) t =
      if k = t then lookupGroup m t ++ [v] else lookupGroup m t
  | [], k, v, t => by
      simp only [insertGroup, lookupGroup]
      split_ifs <;> rfl
  | (k', vs) :: rest, k, v, t => by
      simp only [insertGroup]
      by_cases h1 : k' = k
      · rw [if_pos h1]
        simp only [lookupGroup]
        subst h1
        split_ifs <;> rfl
      · rw [if_neg h1]
        simp only [lookupGroup]
        by_cases h2 : k' = t
        · have hk : ¬ k = t := fun e => h1 (h2.trans e.symm)
          rw [if_pos h2, if_neg hk, if_pos h2]
        · rw [if_neg h2, lookupGroup_insertGroup rest k v t]
          split_ifs <;> rfl

theorem lookupGroup_groupLoop : ∀ (l : List String) (m : List (String × List String)) (t : String),
    lookupGroup (groupLoop m l) t =
      lookupGroup m t ++ l.filter (fun r => decide (typeKey r = t))
  | [], m, t => by simp [groupLoop]
  | r :: rest, m, t => by
      simp only [groupLoop]
      rw [lookupGroup_groupLoop rest, lookupGroup_insertGroup]
      by_cases h : typeKey r = t
      · rw [if_pos h]
        rw [List.filter_cons_of_pos (by simp [h]), List.append_assoc]
        rfl
      · rw [if_neg h]
        rw [List.filter_cons_of_neg (by simp [h])]

theorem lookupGroup_mapSort : ∀ (m : List (String × List String)) (t : String),
    lookupGroup (m.map (fun p => (p.1, sortStrings p.2))) t =
      sortStrings (lookupGroup m t)
  | [], _ => rfl
  | (k, vs) :: rest, t => by
      simp only [List.map, lookupGroup]
      split_ifs
      · rfl
      · exact lookupGroup_mapSort rest t

-- The groups of ResourcesByType are exactly the sorted filters of the bucket.
theorem lookupGroup_resourcesByType (rc : ResourceCollection) (a : Action) (t : String) :
    lookupGroup (ResourcesByType rc a) t =
      sortStrings ((resFor rc a).filter (fun r => decide (typeKey r = t))) := by
  unfold ResourcesByType
  rw [lookupGroup_mapSort, lookupGroup_groupLoop]
  rfl

/-- C7: for every collection and action, an address belongs to a group of
ResourcesByType exactly when it is in the action's bucket and that group
is its key — addresses with the module. leading segment always key to the
dedicated module group, all others to their extracted type — and every
group of the returned map is sorted lexicographically. -/
theorem C7_resources_by_type (rc : ResourceCollection) (a : Action) (t x : String) :
    (x ∈ lookupGroup (ResourcesByType rc a) t ↔
      (x ∈ resFor rc a ∧ typeKey x = t)) ∧
    List.Sorted SLe (lookupGroup (ResourcesByType rc a) t) ∧
    (strStartsWith x "module." = true → typeKey x = "module") ∧
    (strStartsWith x "module." = false → typeKey x = ExtractResourceType x) := by
  refine ⟨?_, ?_, ?_, ?_⟩
  · rw [lookupGroup_resourcesByType, mem_sortStrings, List.mem_filter,
      decide_eq_true_eq]
  · rw [lookupGroup_resourcesByType]
    exact sorted_sortStrings _
  · intro h
    have h' : isModuleResource x = true := h
    unfold typeKey
    rw [if_pos h']
  · intro h
    have h' : isModuleResource x = false := h
    unfold typeKey
    rw [h', if_neg Bool.false_ne_true]

/-- C7 witness: a concrete address lands in its type's group. -/
theorem C7_resources_by_type_witness :
    "aws_s3_bucket.logs" ∈ lookupGroup
      (ResourcesByType ⟨["aws_s3_bucket.logs"], [], [], false, 0, 0, 0, true⟩ .create)
      "aws_s3_bucket" :=
  (C7_resources_by_type ⟨["aws_s3_bucket.logs"], [], [], false, 0, 0, 0, true⟩
    .create "aws_s3_bucket" "aws_s3_bucket.logs").1.mpr ⟨by decide, by decide⟩

/-- C8: for the summary-only collection with 2 adds, 1 change, 0 destroys
(FoundSummary set, no detailed resources) TotalChanges is 3 and the text
formatter prints the two non-zero categories with the "(details not
available)" suffix while the zero category does not appear at all. -/
theorem C8_summary_only :
    TotalChanges ⟨[], [], [], true, 2, 1, 0, false⟩ = 3 ∧
    containsSubstr (FormatText ⟨[], [], [], true, 2, 1, 0, false⟩ ⟨false, false⟩)
      "RESOURCES TO CREATE: 2 (details not available)" = true ∧
    containsSubstr (FormatText ⟨[], [], [], true, 2, 1, 0, false⟩ ⟨false, false⟩)
      "RESOURCES TO UPDATE: 1 (details not available)" = true ∧
    containsSubstr (FormatText ⟨[], [], [], true, 2, 1, 0, false⟩ ⟨false, false⟩)
      "RESOURCES TO DESTROY" = false := by
  decide

/-- The total the C2 claim describes, written from the claim's words (for
comparison with TotalChanges): the counter sum when a summary was found,
otherwise the count of unique addresses across all buckets with an address
in both Create and Destroy counted twice. -/
def claimTotalChanges (rc : ResourceCollection) : Nat :=
  if rc.foundSummary then
    rc.summaryAdds + rc.summaryChanges + rc.summaryDestroys
  else
    (rc.create.toFinset ∪ rc.update.toFinset ∪ rc.destroy.toFinset).card +
    (rc.create.toFinset ∩ rc.destroy.toFinset).card

/-- C2 counterexample: a collection holding the address "a" in both Create
and Update (reachable from a record with actions [create, update]) with no
summary: TotalChanges counts it twice (once per bucket), the claim's
unique-address formula counts it once. -/
theorem C2_counterexample :
    TotalChanges ⟨["a"], ["a"], [], false, 0, 0, 0, true⟩ ≠
      claimTotalChanges ⟨["a"], ["a"], [], false, 0, 0, 0, true⟩ := by
  decide

/-- C2 amended: when detailed resources are present and no summary was
found, TotalChanges returns the sum of the three bucket sizes — an address
counts once per bucket containing it. For duplicate-free buckets in which
no address is shared between Update and another bucket this equals the
claim's formula: the unique-address count plus one extra for each address
in both Create and Destroy. (When FoundSummary is set, or when there are
no detailed resources, it returns the counter sum as the claim says.) -/
theorem C2_amended (rc : ResourceCollection)
    (h1 : rc.foundSummary = false) (h2 : rc.hasDetailedResources = true)
    (hn1 : rc.create.Nodup) (hn2 : rc.update.Nodup) (hn3 : rc.destroy.Nodup)
    (d1 : rc.create.toFinset ∩ rc.update.toFinset = ∅)
    (d2 : rc.update.toFinset ∩ rc.destroy.toFinset = ∅) :
    TotalChanges rc =
      (rc.create.toFinset ∪ rc.update.toFinset ∪ rc.destroy.toFinset).card +
      (rc.create.toFinset ∩ rc.destroy.toFinset).card := by
  have hTC : TotalChanges rc =
      rc.create.length + rc.update.length + rc.destroy.length := by
    unfold TotalChanges
    rw [h1, h2]
    rfl
  have l1 := List.toFinset_card_of_nodup hn1
  have l2 := List.toFinset_card_of_nodup hn2
  have l3 := List.toFinset_card_of_nodup hn3
  have hd1 : Disjoint rc.create.toFinset rc.update.toFinset :=
    Finset.disjoint_iff_inter_eq_empty.mpr d1
  have hd2 : Disjoint rc.update.toFinset rc.destroy.toFinset :=
    Finset.disjoint_iff_inter_eq_empty.mpr d2
  have e1 : rc.create.toFinset ∪ rc.update.toFinset ∪ rc.destroy.toFinset =
      rc.update.toFinset ∪ (rc.create.toFinset ∪ rc.destroy.toFinset) := by
    rw [Finset.union_comm rc.create.toFinset rc.update.toFinset,
      Finset.union_assoc]
  have e2 : (rc.update.toFinset ∪ (rc.create.toFinset ∪ rc.destroy.toFinset)).card =
      rc.update.toFinset.card + (rc.create.toFinset ∪ rc.destroy.toFinset).card :=
    Finset.card_union_of_disjoint
      (Finset.disjoint_union_right.mpr ⟨hd1.symm, hd2⟩)
  have e3 := Finset.card_union_add_card_inter rc.create.toFinset rc.destroy.toFinset
  rw [hTC, e1, e2]
  omega

/-- C2 witness: a replacement-style collection ("a" in Create and Destroy). -/
theorem C2_amended_witness :
    TotalChanges ⟨["a"], [], ["a"], false, 0, 0, 0, true⟩ =
      ((["a"] : List String).toFinset ∪ ([] : List String).toFinset ∪
        (["a"] : List String).toFinset).card +
      ((["a"] : List String).toFinset ∩ (["a"] : List String).toFinset).card :=
  C2_amended ⟨["a"], [], ["a"], false, 0, 0, 0, true⟩ rfl rfl (by decide)
    (by decide) (by decide) (by decide) (by decide)

/-- C4 counterexample: the input "hello" is not valid JSON and does not
carry the legacy text marker; ParseTerraformPlan rejects it with the
generic JSON parse error, whose text does not name the command 'terraform
show -json tfplan' — refuting the claim that every invalid input's error
names that command. (The detail text is the one encoding/json emits for
this input.) -/
theorem C4_counterexample :
    ParseTerraformPlan ⟨"hello", none,
        "invalid character 'h' looking for beginning of value"⟩ =
      .error ("error parsing JSON: invalid character 'h' looking for beginning of value") ∧
    containsSubstr
      "error parsing JSON: invalid character 'h' looking for beginning of value"
      "terraform show -json tfplan" = false :=
  ⟨rfl, by decide⟩

/-- C4 amended: every input that is not valid JSON makes ParseTerraformPlan
return an error, but the message names the command 'terraform show -json
tfplan' exactly when the input starts with the legacy text marker
"Terraform will perform"; otherwise the error is the generic JSON parse
error, which does not name the command (hypothesis: the encoding/json
detail text does not contain it, as its syntax errors never do). -/
theorem C4_amended (i : PlanInput) (hjson : i.json = none)
    (hdetail : containsSubstr ("error parsing JSON: " ++ i.jsonErrMsg)
      "terraform show -json tfplan" = false) :
    ∃ e, ParseTerraformPlan i = .error e ∧
      containsSubstr e "terraform show -json tfplan" = isTextPlan i.raw := by
  unfold ParseTerraformPlan
  by_cases ht : isTextPlan i.raw
  · rw [if_pos ht]
    refine ⟨textFormatErr, rfl, ?_⟩
    rw [ht]
    decide
  · rw [if_neg ht, hjson]
    refine ⟨"error parsing JSON: " ++ i.jsonErrMsg, rfl, ?_⟩
    cases hb : isTextPlan i.raw
    · exact hdetail
    · exact absurd hb ht

/-- C4 witness: the amended statement at the concrete input "hello". -/
theorem C4_amended_witness :
    ∃ e, ParseTerraformPlan ⟨"hello", none,
        "invalid character 'h' looking for beginning of value"⟩ = .error e ∧
      containsSubstr e "terraform show -json tfplan" = isTextPlan "hello" :=
  C4_amended ⟨"hello", none, "invalid character 'h' looking for beginning of value"⟩
    rfl (by decide)

theorem decodeStringElems_map_str : ∀ l : List String,
    decodeStringElems (l.map Json.str) = some l
  | [] => rfl
  | s :: rest => by
      simp only [List.map, decodeStringElems, decodeString]
      rw [decodeStringElems_map_str rest]

theorem decodeStringList_map_str (l : List String) :
    decodeStringList (.arr (l.map Json.str)) = some l := by
  simp only [decodeStringList]
  exact decodeStringElems_map_str l

-- The formatted object has no resource_changes field and none of the
-- schema's keys, so the full-schema unmarshal succeeds with zero records.
theorem unmarshalFull_formatJSON (rc : ResourceCollection) (ts : String) :
    unmarshalFull (FormatJSON rc ts) = some [] := rfl

/-- C5 counterexample: a collection holding one created address, formatted
with FormatJSON and fed back to the parser, parses successfully — the
output has no resource_changes field, so the full-schema unmarshal yields
zero records — and the create bucket of the re-parsed collection is empty
rather than equal to the original, refuting the round-trip claim. -/
theorem C5_counterexample :
    ParseTerraformPlanJson
        (FormatJSON ⟨["aws_s3_bucket.logs"], [], [], true, 1, 0, 0, true⟩
          "2025-01-01T00:00:00Z") = .ok (buildCollection []) ∧
    (buildCollection []).create ≠
      (⟨["aws_s3_bucket.logs"], [], [], true, 1, 0, 0, true⟩ :
        ResourceCollection).create :=
  ⟨rfl, by decide⟩

/-- C5 amended: the create/update/destroy arrays inside the FormatJSON
output hold exactly the collection's address sets (sorted, hence
order-independent); but parsing that output back with ParseTerraformPlan
does not reproduce them — it succeeds with the collection of an empty
record list (empty buckets), because the output carries no
resource_changes field. -/
theorem C5_amended (rc : ResourceCollection) (ts : String) (a : Action) :
    getStringArr (FormatJSON rc ts) (actionJsonKey a) =
      some (GetResourcesForAction rc a) ∧
    (∀ x, x ∈ GetResourcesForAction rc a ↔ x ∈ resFor rc a) ∧
    ParseTerraformPlanJson (FormatJSON rc ts) = .ok (buildCollection []) := by
  refine ⟨?_, fun x => mem_sortStrings, rfl⟩
  cases a
  · show decodeStringList (.arr ((GetResourcesForAction rc .create).map Json.str)) =
      some (GetResourcesForAction rc .create)
    exact decodeStringList_map_str _
  · show decodeStringList (.arr ((GetResourcesForAction rc .update).map Json.str)) =
      some (GetResourcesForAction rc .update)
    exact decodeStringList_map_str _
  · show decodeStringList (.arr ((GetResourcesForAction rc .destroy).map Json.str)) =
      some (GetResourcesForAction rc .destroy)
    exact decodeStringList_map_str _

/-- The sum of the three bucket sizes (createCount + updateCount +
destroyCount of the claim). -/
def sizeSum (rc : ResourceCollection) : Nat :=
  rc.create.length + rc.update.length + rc.destroy.length

/-- The weight the C1 claim assigns one record, written from the claim's
words: data records count zero, a record whose actions include replace
counts one for the create bucket plus one for the destroy bucket, any
other record with at least one create/update/delete verb counts one. -/
def claimWeight (r : ResourceChange) : Nat :=
  if r.mode = "data" then 0
  else if "replace" ∈ r.actions then 2
  else if ("create" ∈ r.actions ∨ "update" ∈ r.actions ∨ "delete" ∈ r.actions) then 1
  else 0

/-- The record count the C1 claim compares the bucket sizes against. -/
def claimCount : List ResourceChange → Nat
  | [] => 0
  | r :: rest => claimWeight r + claimCount rest

theorem fresh_addToSet {x addr : String} {l : List String} (hx : x ∉ l)
    (hne : x ≠ addr) : x ∉ addToSet l addr :=
  fun hmem => (mem_addToSet.mp hmem).elim hne hx

theorem two_mem_le_length {a b : String} {l : List String}
    (h1 : a ∈ l) (h2 : b ∈ l) (hne : a ≠ b) : 2 ≤ l.length := by
  have hsub : ({a, b} : Finset String) ⊆ l.toFinset := by
    intro x hx
    rcases Finset.mem_insert.mp hx with rfl | hx
    · exact List.mem_toFinset.mpr h1
    · rw [Finset.mem_singleton.mp hx]
      exact List.mem_toFinset.mpr h2
  calc 2 = ({a, b} : Finset String).card := (Finset.card_pair hne).symm
    _ ≤ l.toFinset.card := Finset.card_le_card hsub
    _ ≤ l.length := l.toFinset_card_le

-- Main counting lemma: over records with pairwise distinct (non-data)
-- addresses, all fresh for the current state, and at most one
-- create/update/delete verb per non-replacement record, the bucket sizes
-- grow by exactly the claim's weight of each record.
theorem processRC_sizeSum : ∀ (l : List ResourceChange) (rc : ResourceCollection),
    (∀ r ∈ l, r.mode ≠ "data" →
      (r.address ∉ rc.create ∧ r.address ∉ rc.update ∧ r.address ∉ rc.destroy)) →
    ((l.filter (fun r => decide (r.mode ≠ "data"))).map ResourceChange.address).Nodup →
    (∀ r ∈ l, r.mode ≠ "data" → isReplacement r.actions = false →
      (r.actions.filter (fun a => decide (a = "create") || decide (a = "update") ||
        decide (a = "delete"))).length ≤ 1) →
    sizeSum (processResourceChanges rc l) = sizeSum rc + claimCount l
  | [], rc, _, _, _ => by
      simp [processResourceChanges, claimCount]
  | r :: rest, rc, hfresh, hnodup, hone => by
      have hfresh' := fun r' hr' => hfresh r' (List.mem_cons_of_mem _ hr')
      have hone' := fun r' hr' => hone r' (List.mem_cons_of_mem _ hr')
      simp only [processResourceChanges, claimCount]
      by_cases hd : r.mode = "data"
      · rw [if_pos hd]
        have hfl : (r :: rest).filter (fun r => decide (r.mode ≠ "data")) =
            rest.filter (fun r => decide (r.mode ≠ "data")) :=
          List.filter_cons_of_neg (by simp [hd])
        rw [hfl] at hnodup
        rw [processRC_sizeSum rest rc hfresh' hnodup hone']
        have hw : claimWeight r = 0 := by simp only [claimWeight, if_pos hd]
        omega
      · have hfl : (r :: rest).filter (fun r => decide (r.mode ≠ "data")) =
            r :: rest.filter (fun r => decide (r.mode ≠ "data")) :=
          List.filter_cons_of_pos (by simp [hd])
        rw [hfl, List.map_cons, List.nodup_cons] at hnodup
        obtain ⟨hhead, htail⟩ := hnodup
        have hne : ∀ r' ∈ rest, r'.mode ≠ "data" → r'.address ≠ r.address := by
          intro r' hr' hd' he
          exact hhead (he ▸ List.mem_map_of_mem _
            (List.mem_filter.mpr ⟨hr', by simp [hd']⟩))
        rw [if_neg hd]
        obtain ⟨hfc, hfu, hfd⟩ := hfresh r (List.mem_cons_self _ _) hd
        by_cases hn : isNoOpAction r.actions = true
        · rw [if_pos hn]
          rw [processRC_sizeSum rest rc hfresh' htail hone']
          have hacts := isNoOpAction_iff.mp hn
          have hw : claimWeight r = 0 := by
            simp only [claimWeight, if_neg hd]
            rw [hacts]
            decide
          omega
        · rw [if_neg hn]
          by_cases hr : isReplacement r.actions = true
          · rw [if_pos hr]
            have hc' : (AddResource (AddResource rc .create r.address) .destroy
                r.address).create = rc.create ++ [r.address] := by
              simp only [AddResource]
              rw [addToSet_of_not_mem hfc]
            have hu' : (AddResource (AddResource rc .create r.address) .destroy
                r.address).update = rc.update := by
              simp only [AddResource]
            have hd' : (AddResource (AddResource rc .create r.address) .destroy
                r.address).destroy = rc.destroy ++ [r.address] := by
              simp only [AddResource]
              rw [addToSet_of_not_mem hfd]
            have hfreshR : ∀ r' ∈ rest, r'.mode ≠ "data" →
                (r'.address ∉ (AddResource (AddResource rc .create r.address)
                    .destroy r.address).create ∧
                 r'.address ∉ (AddResource (AddResource rc .create r.address)
                    .destroy r.address).update ∧
                 r'.address ∉ (AddResource (AddResource rc .create r.address)
                    .destroy r.address).destroy) := by
              intro r' hr' hd2
              obtain ⟨f1, f2, f3⟩ := hfresh' r' hr' hd2
              have hne' := hne r' hr' hd2
              refine ⟨?_, ?_, ?_⟩
              · rw [hc']
                intro hmem
                rcases List.mem_append.mp hmem with hm | hm
                · exact f1 hm
                · exact hne' (List.mem_singleton.mp hm)
              · rw [hu']
                exact f2
              · rw [hd']
                intro hmem
                rcases List.mem_append.mp hmem with hm | hm
                · exact f3 hm
                · exact hne' (List.mem_singleton.mp hm)
            rw [processRC_sizeSum rest _ hfreshR htail hone']
            have hss : sizeSum (AddResource (AddResource rc .create r.address)
                .destroy r.address) = sizeSum rc + 2 := by
              simp only [sizeSum]
              rw [hc', hu', hd']
              simp only [List.length_append, List.length_singleton]
              omega
            have hw : claimWeight r = 2 := by
              simp only [claimWeight, if_neg hd, if_pos (isReplacement_iff.mp hr)]
            rw [hss, hw]
            omega
          · rw [if_neg hr]
            have hrF : isReplacement r.actions = false := by
              cases hb : isReplacement r.actions
              · rfl
              · exact absurd hb hr
            have hnrep : "replace" ∉ r.actions := by
              intro m
              rw [isReplacement_iff.mpr m] at hrF
              exact absurd hrF (by decide)
            have honer := hone r (List.mem_cons_self _ _) hd hrF
            by_cases hP1 : "create" ∈ r.actions
            · by_cases hP2 : "update" ∈ r.actions
              · exfalso
                have m1 : "create" ∈ r.actions.filter (fun a => decide (a = "create") ||
                    decide (a = "update") || decide (a = "delete")) :=
                  List.mem_filter.mpr ⟨hP1, by decide⟩
                have m2 : "update" ∈ r.actions.filter (fun a => decide (a = "create") ||
                    decide (a = "update") || decide (a = "delete")) :=
                  List.mem_filter.mpr ⟨hP2, by decide⟩
                have := two_mem_le_length m1 m2 (by decide)
                omega
              · by_cases hP3 : "delete" ∈ r.actions
                · exfalso
                  have m1 : "create" ∈ r.actions.filter (fun a => decide (a = "create") ||
                      decide (a = "update") || decide (a = "delete")) :=
                    List.mem_filter.mpr ⟨hP1, by decide⟩
                  have m2 : "delete" ∈ r.actions.filter (fun a => decide (a = "create") ||
                      decide (a = "update") || decide (a = "delete")) :=
                    List.mem_filter.mpr ⟨hP3, by decide⟩
                  have := two_mem_le_length m1 m2 (by decide)
                  omega
                · have h1 : (processStandardActions rc r.address r.actions).create =
                      addToSet rc.create r.address :=
                    (psa_create r.address r.actions rc).trans (if_pos hP1)
                  have h2 : (processStandardActions rc r.address r.actions).update =
                      rc.update :=
                    (psa_update r.address r.actions rc).trans (if_neg hP2)
                  have h3 : (processStandardActions rc r.address r.actions).destroy =
                      rc.destroy :=
                    (psa_destroy r.address r.actions rc).trans (if_neg hP3)
                  have hfreshR : ∀ r' ∈ rest, r'.mode ≠ "data" →
                      (r'.address ∉ (processStandardActions rc r.address r.actions).create ∧
                       r'.address ∉ (processStandardActions rc r.address r.actions).update ∧
                       r'.address ∉ (processStandardActions rc r.address r.actions).destroy) := by
                    intro r' hr' hd2
                    obtain ⟨f1, f2, f3⟩ := hfresh' r' hr' hd2
                    exact ⟨by rw [h1]; exact fresh_addToSet f1 (hne r' hr' hd2),
                      by rw [h2]; exact f2, by rw [h3]; exact f3⟩
                  rw [processRC_sizeSum rest _ hfreshR htail hone']
                  have hss : sizeSum (processStandardActions rc r.address r.actions) =
                      sizeSum rc + 1 := by
                    simp only [sizeSum]
                    rw [h1, h2, h3, addToSet_length_of_not_mem hfc]
                    omega
                  have hw : claimWeight r = 1 := by
                    simp only [claimWeight, if_neg hd, if_neg hnrep]
                    rw [if_pos (Or.inl hP1)]
                  rw [hss, hw]
                  omega
            · by_cases hP2 : "update" ∈ r.actions
              · by_cases hP3 : "delete" ∈ r.actions
                · exfalso
                  have m1 : "update" ∈ r.actions.filter (fun a => decide (a = "create") ||
                      decide (a = "update") || decide (a = "delete")) :=
                    List.mem_filter.mpr ⟨hP2, by decide⟩
                  have m2 : "delete" ∈ r.actions.filter (fun a => decide (a = "create") ||
                      decide (a = "update") || decide (a = "delete")) :=
                    List.mem_filter.mpr ⟨hP3, by decide⟩
                  have := two_mem_le_length m1 m2 (by decide)
                  omega
                · have h1 : (processStandardActions rc r.address r.actions).create =
                      rc.create :=
                    (psa_create r.address r.actions rc).trans (if_neg hP1)
                  have h2 : (processStandardActions rc r.address r.actions).update =
                      addToSet rc.update r.address :=
                    (psa_update r.address r.actions rc).trans (if_pos hP2)
                  have h3 : (processStandardActions rc r.address r.actions).destroy =
                      rc.destroy :=
                    (psa_destroy r.address r.actions rc).trans (if_neg hP3)
                  have hfreshR : ∀ r' ∈ rest, r'.mode ≠ "data" →
                      (r'.address ∉ (processStandardActions rc r.address r.actions).create ∧
                       r'.address ∉ (processStandardActions rc r.address r.actions).update ∧
                       r'.address ∉ (processStandardActions rc r.address r.actions).destroy) := by
                    intro r' hr' hd2
                    obtain ⟨f1, f2, f3⟩ := hfresh' r' hr' hd2
                    exact ⟨by rw [h1]; exact f1,
                      by rw [h2]; exact fresh_addToSet f2 (hne r' hr' hd2),
                      by rw [h3]; exact f3⟩
                  rw [processRC_sizeSum rest _ hfreshR htail hone']
                  have hss : sizeSum (processStandardActions rc r.address r.actions) =
                      sizeSum rc + 1 := by
                    simp only [sizeSum]
                    rw [h1, h2, h3, addToSet_length_of_not_mem hfu]
                    omega
                  have hw : claimWeight r = 1 := by
                    simp only [claimWeight, if_neg hd, if_neg hnrep]
                    rw [if_pos (Or.inr (Or.inl hP2))]
                  rw [hss, hw]
                  omega
              · by_cases hP3 : "delete" ∈ r.actions
                · have h1 : (processStandardActions rc r.address r.actions).create =
                      rc.create :=
                    (psa_create r.address r.actions rc).trans (if_neg hP1)
                  have h2 : (processStandardActions rc r.address r.actions).update =
                      rc.update :=
                    (psa_update r.address r.actions rc).trans (if_neg hP2)
                  have h3 : (processStandardActions rc r.address r.actions).destroy =
                      addToSet rc.destroy r.address :=
                    (psa_destroy r.address r.actions rc).trans (if_pos hP3)
                  have hfreshR : ∀ r' ∈ rest, r'.mode ≠ "data" →
                      (r'.address ∉ (processStandardActions rc r.address r.actions).create ∧
                       r'.address ∉ (processStandardActions rc r.address r.actions).update ∧
                       r'.address ∉ (processStandardActions rc r.address r.actions).destroy) := by
                    intro r' hr' hd2
                    obtain ⟨f1, f2, f3⟩ := hfresh' r' hr' hd2
                    exact ⟨by rw [h1]; exact f1, by rw [h2]; exact f2,
                      by rw [h3]; exact fresh_addToSet f3 (hne r' hr' hd2)⟩
                  rw [processRC_sizeSum rest _ hfreshR htail hone']
                  have hss : sizeSum (processStandardActions rc r.address r.actions) =
                      sizeSum rc + 1 := by
                    simp only [sizeSum]
                    rw [h1, h2, h3, addToSet_length_of_not_mem hfd]
                    omega
                  have hw : claimWeight r = 1 := by
                    simp only [claimWeight, if_neg hd, if_neg hnrep]
                    rw [if_pos (Or.inr (Or.inr hP3))]
                  rw [hss, hw]
                  omega
                · have h1 : (processStandardActions rc r.address r.actions).create =
                      rc.create :=
                    (psa_create r.address r.actions rc).trans (if_neg hP1)
                  have h2 : (processStandardActions rc r.address r.actions).update =
                      rc.update :=
                    (psa_update r.address r.actions rc).trans (if_neg hP2)
                  have h3 : (processStandardActions rc r.address r.actions).destroy =
                      rc.destroy :=
                    (psa_destroy r.address r.actions rc).trans (if_neg hP3)
                  have hfreshR : ∀ r' ∈ rest, r'.mode ≠ "data" →
                      (r'.address ∉ (processStandardActions rc r.address r.actions).create ∧
                       r'.address ∉ (processStandardActions rc r.address r.actions).update ∧
                       r'.address ∉ (processStandardActions rc r.address r.actions).destroy) := by
                    intro r' hr' hd2
                    obtain ⟨f1, f2, f3⟩ := hfresh' r' hr' hd2
                    exact ⟨by rw [h1]; exact f1, by rw [h2]; exact f2,
                      by rw [h3]; exact f3⟩
                  rw [processRC_sizeSum rest _ hfreshR htail hone']
                  have hss : sizeSum (processStandardActions rc r.address r.actions) =
                      sizeSum rc := by
                    simp only [sizeSum]
                    rw [h1, h2, h3]
                  have hw : claimWeight r = 0 := by
                    simp only [claimWeight, if_neg hd, if_neg hnrep]
                    rw [if_neg (fun hor => hor.elim hP1 (fun hor2 => hor2.elim hP2 hP3))]
                  rw [hss, hw]
                  omega

theorem buildCollection_create (changes : List ResourceChange) :
    (buildCollection changes).create =
      (processResourceChanges NewResourceCollection changes).create :=
  calcLoop_create changes _

theorem buildCollection_update (changes : List ResourceChange) :
    (buildCollection changes).update =
      (processResourceChanges NewResourceCollection changes).update :=
  calcLoop_update changes _

theorem buildCollection_destroy (changes : List ResourceChange) :
    (buildCollection changes).destroy =
      (processResourceChanges NewResourceCollection changes).destroy :=
  calcLoop_destroy changes _

/-- C1 counterexample: one managed record with the two verbs create and
update is added to both the Create and the Update bucket, so the bucket
sizes sum to 2, while it is a single record with at least one
create/update/delete action — the claim's count gives 1. -/
theorem C1_counterexample :
    CountResourcesForAction (buildCollection
        [⟨"a", "managed", ["create", "update"]⟩]) .create +
    CountResourcesForAction (buildCollection
        [⟨"a", "managed", ["create", "update"]⟩]) .update +
    CountResourcesForAction (buildCollection
        [⟨"a", "managed", ["create", "update"]⟩]) .destroy ≠
    claimCount [⟨"a", "managed", ["create", "update"]⟩] := by
  decide

/-- C1 amended: for plans whose non-data records carry pairwise distinct
addresses and whose non-replacement records have at most one
create/update/delete verb each, the sum of the three bucket sizes of the
parsed collection equals the number of non-data records with at least one
create/update/delete action, a record with replace counting one for
Create plus one for Destroy. (Without those restrictions a multi-verb
record or a repeated address makes the two counts differ.) -/
theorem C1_amended (changes : List ResourceChange)
    (hnodup : ((changes.filter (fun r => decide (r.mode ≠ "data"))).map
      ResourceChange.address).Nodup)
    (hone : ∀ r ∈ changes, r.mode ≠ "data" → isReplacement r.actions = false →
      (r.actions.filter (fun a => decide (a = "create") || decide (a = "update") ||
        decide (a = "delete"))).length ≤ 1) :
    CountResourcesForAction (buildCollection changes) .create +
    CountResourcesForAction (buildCollection changes) .update +
    CountResourcesForAction (buildCollection changes) .destroy =
    claimCount changes := by
  show (buildCollection changes).create.length +
    (buildCollection changes).update.length +
    (buildCollection changes).destroy.length = claimCount changes
  rw [buildCollection_create, buildCollection_update, buildCollection_destroy]
  have key := processRC_sizeSum changes NewResourceCollection
    (fun r _ _ => ⟨List.not_mem_nil _, List.not_mem_nil _, List.not_mem_nil _⟩)
    hnodup hone
  simp only [sizeSum] at key
  rw [key]
  simp [NewResourceCollection]

/-- C1 witness: a plan with one plain create, one replacement, one data
record and one no-op record; both counts are 3. -/
theorem C1_amended_witness :
    CountResourcesForAction (buildCollection
        [⟨"aws_s3_bucket.logs", "managed", ["create"]⟩,
         ⟨"aws_instance.web", "managed", ["replace"]⟩,
         ⟨"data.aws_ami.x", "data", ["create"]⟩,
         ⟨"aws_vpc.main", "managed", ["no-op"]⟩]) .create +
    CountResourcesForAction (buildCollection
        [⟨"aws_s3_bucket.logs", "managed", ["create"]⟩,
         ⟨"aws_instance.web", "managed", ["replace"]⟩,
         ⟨"data.aws_ami.x", "data", ["create"]⟩,
         ⟨"aws_vpc.main", "managed", ["no-op"]⟩]) .update +
    CountResourcesForAction (buildCollection
        [⟨"aws_s3_bucket.logs", "managed", ["create"]⟩,
         ⟨"aws_instance.web", "managed", ["replace"]⟩,
         ⟨"data.aws_ami.x", "data", ["create"]⟩,
         ⟨"aws_vpc.main", "managed", ["no-op"]⟩]) .destroy =
    claimCount
        [⟨"aws_s3_bucket.logs", "managed", ["create"]⟩,
         ⟨"aws_instance.web", "managed", ["replace"]⟩,
         ⟨"data.aws_ami.x", "data", ["create"]⟩,
         ⟨"aws_vpc.main", "managed", ["no-op"]⟩] :=
  C1_amended
    [⟨"aws_s3_bucket.logs", "managed", ["create"]⟩,
     ⟨"aws_instance.web", "managed", ["replace"]⟩,
     ⟨"data.aws_ami.x", "data", ["create"]⟩,
     ⟨"aws_vpc.main", "managed", ["no-op"]⟩]
    (by decide) (by decide)

end TPF
